import Mathlib

/-!
Verification development for the casper-inotify event-dispatch core
(`src/api.h`, `src/api.cc`).  The C++ is shallowly embedded: kernel event
masks are `Nat` bitsets, watch descriptors are `Int` with sentinel `-1`,
the rule table (`Entries`) keeps the authoritative list `all` together
with `good` (watch descriptor to rule), `bad` (retry list) and the two
user URI sets.  Shared `Entry*` pointers of the C++ are modelled as
stable indices into `all`.  External effects (the kernel's
`inotify_add_watch` result, `errno` text, `fnmatch`) are oracle
parameters of the embedded functions.
-/

namespace CasperInotify

/-! ## Kernel event flags (linux `sys/inotify.h` values used by the source) -/

def IN_ACCESS : Nat := 0x00000001
def IN_MODIFY : Nat := 0x00000002
def IN_ATTRIB : Nat := 0x00000004
def IN_CLOSE_WRITE : Nat := 0x00000008
def IN_CLOSE_NOWRITE : Nat := 0x00000010
def IN_CLOSE : Nat := IN_CLOSE_WRITE ||| IN_CLOSE_NOWRITE
def IN_OPEN : Nat := 0x00000020
def IN_MOVED_FROM : Nat := 0x00000040
def IN_MOVED_TO : Nat := 0x00000080
def IN_MOVE : Nat := IN_MOVED_FROM ||| IN_MOVED_TO
def IN_CREATE : Nat := 0x00000100
def IN_DELETE : Nat := 0x00000200
def IN_DELETE_SELF : Nat := 0x00000400
def IN_MOVE_SELF : Nat := 0x00000800
def IN_IGNORED : Nat := 0x00008000
def IN_ONLYDIR : Nat := 0x01000000
def IN_ISDIR : Nat := 0x40000000

/-! ## Template engine: `API::Replace` (api.cc:1121-1129)

`API::Replace` scans `a_value` left to right with `std::string::find`,
replaces each found occurrence of `a_from` and resumes the scan right
after the inserted `a_to` (so introduced text is never rescanned).  The
`while` loop is embedded as fuel-indexed structural recursion on the
character list; one unit of fuel is consumed per input character, so
`length` fuel always suffices.  For empty `a_from` the C++ loop does not
terminate; the program only ever passes nonempty placeholder strings. -/

def creplaceF (f t : List Char) : Nat → List Char → List Char
  | _, [] => []
  | 0, s => s
  | Nat.succ n, c :: cs =>
    if 0 < f.length ∧ f.isPrefixOf (c :: cs) then
      t ++ creplaceF f t n (List.drop (f.length - 1) cs)
    else
      c :: creplaceF f t n cs

def Replace (a_value a_from a_to : String) : String :=
  ⟨creplaceF a_from.data a_to.data a_value.data.length a_value.data⟩

/-- `a_from` occurs nowhere in `cs` (as a contiguous substring, the
occurrences `std::string::find` would report). -/
def NoOccurL (f cs : List Char) : Prop :=
  ∀ i, i ≤ cs.length → ¬ (f.isPrefixOf (cs.drop i) = true)

def NoOccur (a_from a_value : String) : Prop :=
  NoOccurL a_from.data a_value.data

instance (f cs : List Char) : Decidable (NoOccurL f cs) :=
  Nat.decidableBallLE cs.length _

instance (a_from a_value : String) : Decidable (NoOccur a_from a_value) :=
  inferInstanceAs (Decidable (NoOccurL _ _))

theorem noOccurL_tail {f : List Char} {c : Char} {cs : List Char}
    (h : NoOccurL f (c :: cs)) : NoOccurL f cs := by
  intro i hi hpre
  exact h (i + 1) (by simpa using Nat.succ_le_succ hi) (by simpa using hpre)

theorem creplaceF_of_noOccur {f : List Char} (t : List Char) :
    ∀ (n : Nat) (s : List Char), NoOccurL f s → creplaceF f t n s = s := by
  intro n
  induction n with
  | zero =>
    intro s _
    cases s <;> rfl
  | succ n ih =>
    intro s hs
    cases s with
    | nil => rfl
    | cons c cs =>
      have hnp : ¬ (f.isPrefixOf (c :: cs) = true) := by
        have := hs 0 (Nat.zero_le _)
        simpa using this
      rw [creplaceF]
      rw [if_neg (by
        intro hcontra
        exact hnp hcontra.2)]
      rw [ih cs (noOccurL_tail hs)]

theorem Replace_of_noOccur {a_value a_from a_to : String}
    (h : NoOccur a_from a_value) : Replace a_value a_from a_to = a_value := by
  unfold Replace
  rw [creplaceF_of_noOccur a_to.data a_value.data.length a_value.data h]

/-- C9 counterexample: re-applying `Replace` for the same placeholder and
value is not a no-op in general. With placeholder `X = "${A}"` and value
`Y = "${"`, on `s = "${A}A}"` the first pass yields `"${A}"` (a fresh
occurrence of `X` formed at the replacement boundary), and the second
pass rewrites it again to `"${"`. -/
theorem C9_counterexample :
    Replace "${A}A\x7d" "${A}" "$\x7b" = "${A}" ∧
    Replace (Replace "${A}A\x7d" "${A}" "$\x7b") "${A}" "$\x7b" = "$\x7b" ∧
    ("$\x7b" : String) ≠ "${A}" := by
  refine ⟨by decide, by decide, by decide⟩

/-- C9 (amended): `Replace` leaves any string with no occurrence of the
searched-for string unchanged; consequently re-applying `Replace` is a
no-op whenever the first application's result contains no occurrence of
the searched-for string (the engine does not rescan introduced text, but
a replacement boundary can still form a new occurrence, so the
unconditional idempotence of the original claim fails). -/
theorem C9_replace_noop (a_value a_from a_to : String) :
    (NoOccur a_from a_value → Replace a_value a_from a_to = a_value) ∧
    (NoOccur a_from (Replace a_value a_from a_to) →
      Replace (Replace a_value a_from a_to) a_from a_to =
        Replace a_value a_from a_to) :=
  ⟨fun h => Replace_of_noOccur h, fun h => Replace_of_noOccur h⟩

/-- Witness for C9: both hypotheses discharged at concrete strings. -/
theorem C9_replace_noop_witness :
    Replace "plain text" "${MISSING}" "v" = "plain text" ∧
    Replace (Replace "plain text" "${MISSING}" "v") "${MISSING}" "v" =
      Replace "plain text" "${MISSING}" "v" :=
  ⟨(C9_replace_noop "plain text" "${MISSING}" "v").1 (by decide),
   (C9_replace_noop "plain text" "${MISSING}" "v").2 (by decide)⟩

/-! ## Event taxonomy (api.cc:57-101)

`sk_field_id_to_name_map_` maps each kernel flag to its C identifier,
its configuration keyword and a human description;
`sk_field_key_to_id_map_` maps configuration keywords back to kernel
flags.  Both are embedded as association lists in the source's entry
order (`std::map` ordering does not matter for lookups: keys are
distinct). -/

structure FieldInfo where
  name : String
  key : String
  description : String
deriving DecidableEq, Repr

def sk_field_id_to_name_map : List (Nat × FieldInfo) := [
  (IN_ACCESS, ⟨"IN_ACCESS", "access", "File was accessed."⟩),
  (IN_ATTRIB, ⟨"IN_ATTRIB", "attrib", "Metadata, permissions, timestamps, ownership, etc, changes."⟩),
  (IN_CLOSE, ⟨"IN_CLOSE", "close", "IN_CLOSE_WRITE | IN_CLOSE_NOWRITE"⟩),
  (IN_CLOSE_WRITE, ⟨"IN_CLOSE_WRITE", "close_write", "File opened for writing was closed."⟩),
  (IN_CLOSE_NOWRITE, ⟨"IN_CLOSE_NOWRITE", "close_nowrite", "File or directory not opened for writing was closed."⟩),
  (IN_CREATE, ⟨"IN_CREATE", "create", "File/directory created in watched directory."⟩),
  (IN_DELETE, ⟨"IN_DELETE", "delete", "File/directory deleted from watched directory."⟩),
  (IN_DELETE_SELF, ⟨"IN_DELETE_SELF", "delete_self", "Watched file/directory was itself deleted."⟩),
  (IN_MODIFY, ⟨"IN_MODIFY", "modify", "File was modified."⟩),
  (IN_MOVE, ⟨"IN_MOVE", "move", "IN_MOVED_FROM | IN_MOVED_TO."⟩),
  (IN_MOVE_SELF, ⟨"IN_MOVE_SELF", "move_self", "Watched file/directory was itself moved."⟩),
  (IN_MOVED_FROM, ⟨"IN_MOVED_FROM", "move_from", "Generated for the directory containing the old filename when a file is renamed."⟩),
  (IN_MOVED_TO, ⟨"IN_MOVED_TO", "move_to", "Generated for the directory containing the new filename when a file is renamed."⟩),
  (IN_OPEN, ⟨"IN_OPEN", "open", "File or directory was opened."⟩)]

def sk_field_key_to_id_map : List (String × Nat) := [
  ("open", IN_OPEN),
  ("create", IN_CREATE),
  ("access", IN_ACCESS),
  ("modify", IN_MODIFY),
  ("attrib", IN_ATTRIB),
  ("close_write", IN_CLOSE_WRITE),
  ("close_nowrite", IN_CLOSE_NOWRITE),
  ("close", IN_CLOSE),
  ("delete", IN_DELETE),
  ("delete_sef", IN_DELETE_SELF),
  ("move", IN_MOVE),
  ("move_self", IN_MOVE_SELF),
  ("move_from", IN_MOVED_FROM),
  ("move_to", IN_MOVED_TO)]

/-- Lookup of `sk_field_key_to_id_map_.find` (api.cc:210). -/
def keyToId (k : String) : Option Nat :=
  (sk_field_key_to_id_map.find? (fun p => p.1 = k)).map (fun p => p.2)

/-- The `events2mask` lambda of `API::Load` (api.cc:207-218): OR every
recognized keyword's flag into the mask; unrecognized keywords are
printed to stdout with a `???` marker and contribute nothing. -/
def events2mask (a_array : List String) : Nat :=
  a_array.foldl (fun mask k =>
    match keyToId k with
    | some id => mask ||| id
    | none => mask) 0

/-- The keywords `events2mask` reports to the diagnostic stream
(the `fprintf(stdout, "%s ???\n", ...)` branch, api.cc:214). -/
def unknownKeywords (a_array : List String) : List String :=
  a_array.filter (fun k => keyToId k = none)

/-- C4 evaluated at the failing input: the keyword-to-flag map spells the
`delete_self` keyword `"delete_sef"` (api.cc:94), so the documented
keyword `"delete_self"` is not recognized — it is reported as unknown
and contributes nothing to the mask — even though the code's own
flag-to-name table (api.cc:67) names the keyword of `IN_DELETE_SELF`
`"delete_self"`.  The remaining thirteen keywords map as documented. -/
theorem C4_delete_self_typo :
    keyToId "delete_self" = none ∧
    events2mask ["delete_self"] = 0 ∧
    unknownKeywords ["delete_self"] = ["delete_self"] ∧
    ((sk_field_id_to_name_map.find? (fun p => p.1 = IN_DELETE_SELF)).map
      (fun p => p.2.key)) = some "delete_self" ∧
    keyToId "delete_sef" = some IN_DELETE_SELF ∧
    events2mask ["access", "attrib", "close", "close_write", "close_nowrite",
      "create", "delete", "modify", "move", "move_self", "move_from",
      "move_to", "open"] =
      (IN_ACCESS ||| IN_ATTRIB ||| IN_CLOSE ||| IN_CLOSE_WRITE |||
        IN_CLOSE_NOWRITE ||| IN_CREATE ||| IN_DELETE ||| IN_MODIFY |||
        IN_MOVE ||| IN_MOVE_SELF ||| IN_MOVED_FROM ||| IN_MOVED_TO |||
        IN_OPEN) := by
  refine ⟨by decide, by decide, by decide, by decide, by decide, by decide⟩

/-! ## Rule table (api.h:84-108)

`API::Entry` with its mutable registration state; the optional
`std::function` handler is represented by the `hasHandler` flag (the
only handler ever attached is `API::Handler`, embedded below).  The C++
containers hold shared `Entry*` pointers; here `all` is authoritative
and `good` / `bad` refer to entries by index into `all`. -/

inductive EType where
  | file
  | directory
deriving DecidableEq, Repr

structure Entry where
  type : EType
  uri : String
  mask : Nat
  wd : Int
  user : String
  cmd : String
  msg : String
  pattern : String
  error : String
  warning : String
  hasHandler : Bool
deriving DecidableEq, Repr

instance : Inhabited Entry :=
  ⟨⟨EType.file, "", 0, -1, "", "", "", "", "", "", false⟩⟩

def dEntry : Entry := default

structure Entries where
  all : List Entry
  good : List (Int × Nat)
  bad : List Nat
  dirUris : List String
  fileUris : List String
deriving DecidableEq, Repr

def emptyEntries : Entries := ⟨[], [], [], [], []⟩

/-- Entry the index `i` refers to (a dereference of the shared pointer). -/
def entAt (s : Entries) (i : Nat) : Entry := s.all.getD i dEntry

/-! ## Loader (api.cc:205-321, `API::Load` and `API::Add`)

A configuration element is its JSON object reduced to the fields `Add`
and the two loops read; `none` models a missing member (`Json::Value`
default lookup). -/

structure CfgObj where
  uri : Option String
  events : List String
  user : Option String
  command : Option String
  message : Option String
  pattern : Option String
deriving DecidableEq, Repr

structure Defaults where
  user : String
  command : String
  message : String
deriving DecidableEq, Repr

/-- Default message template (api.cc:258). -/
def defaultMessage : String :=
  "CASPER-INOTIFY :: WARNING :: ${CASPER_INOTIFY_NAME} ${CASPER_INOTIFY_OBJECT} was ${CASPER_INOTIFY_EVENT} @ ${CASPER_INOTIFY_HOSTNAME} [ ${CASPER_INOTIFY_DATETIME} ]"

/-- `API::Add` (api.cc:797-832): insert the URI into the matching user
URI set unless a handler is attached, then append the new entry (with
unregistered `wd = -1`) to `all`. -/
def Add (dft : Defaults) (s : Entries) (a_type : EType) (a_object : CfgObj)
    (a_uri : String) (a_mask : Nat) (a_handler : Bool) : Entries :=
  let s1 :=
    match a_type, a_handler with
    | EType.directory, false =>
      { s with dirUris :=
          if s.dirUris.contains a_uri then s.dirUris else s.dirUris ++ [a_uri] }
    | EType.file, false =>
      { s with fileUris :=
          if s.fileUris.contains a_uri then s.fileUris else s.fileUris ++ [a_uri] }
    | _, true => s
  { s1 with all := s1.all ++ [{
      type := a_type, uri := a_uri, mask := a_mask, wd := -1,
      user := (a_object.user).getD dft.user,
      cmd := (a_object.command).getD dft.command,
      msg := (a_object.message).getD dft.message,
      pattern := (a_object.pattern).getD "",
      error := "", warning := "", hasHandler := a_handler }] }

/-- Index of the last `'/'`, the `std::string::rfind('/')` of api.cc:300. -/
def lastSlashIdxAux : List Char → Nat → Option Nat → Option Nat
  | [], _, res => res
  | c :: cs, i, res => lastSlashIdxAux cs (i + 1) (if c = '/' then some i else res)

def lastSlashIdx (cs : List Char) : Option Nat := lastSlashIdxAux cs 0 none

/-- `tmp.substr(0, last_slash_idx)` when `rfind` succeeds (api.cc:300-305). -/
def parentOf (s : String) : Option String :=
  match lastSlashIdx s.data with
  | none => none
  | some i => some ⟨s.data.take i⟩

/-- One iteration of the `directories` loop of `API::Load`
(api.cc:266-276).  Note `IN_ONLYDIR` is OR'd into the mask before the
`0 == mask` check, which therefore never fires. -/
def loadDir (dft : Defaults) (s : Entries) (o : CfgObj) : Entries :=
  match o.uri with
  | none => s
  | some uri =>
    let mask := events2mask o.events ||| IN_ONLYDIR
    if mask = 0 then s
    else Add dft s EType.directory o uri mask false

/-- The tail of a `files`-loop iteration once the (promoted) mask is
known (api.cc:296-311): a mask requesting `modify` first adds the
synthetic parent-directory rule with mask `IN_CREATE` and the
re-registration handler (and skips the element entirely when the URI
has no `'/'`), then the regular file rule is added. -/
def loadFileCore (dft : Defaults) (o : CfgObj) (uri : String) (mask : Nat)
    (s : Entries) : Entries :=
  if mask &&& IN_MODIFY ≠ 0 then
    match parentOf uri with
    | none => s
    | some directory =>
      Add dft (Add dft s EType.directory o directory IN_CREATE true)
        EType.file o uri mask false
  else Add dft s EType.file o uri mask false

/-- One iteration of the `files` loop of `API::Load` (api.cc:283-312):
elements without a URI and empty masks are skipped; `delete` is promoted
to include `delete_self`; then `loadFileCore` adds the rule(s). -/
def loadFile (dft : Defaults) (s : Entries) (o : CfgObj) : Entries :=
  match o.uri with
  | none => s
  | some uri =>
    let mask0 := events2mask o.events
    if mask0 = 0 then s
    else
      loadFileCore dft o uri
        (if mask0 &&& IN_DELETE ≠ 0 then mask0 ||| IN_DELETE_SELF else mask0) s

/-- `API::Load` restricted to the rule-table effects: the `directories`
loop then the `files` loop, starting from the empty table (the instance
loads exactly once). -/
def Load (dft : Defaults) (dirs files : List CfgObj) : Entries :=
  files.foldl (loadFile dft) (dirs.foldl (loadDir dft) emptyEntries)

theorem lor_onlydir_pos (m : Nat) : 0 < m ||| IN_ONLYDIR := by
  have h1 : Nat.testBit (m ||| IN_ONLYDIR) 24 = true := by
    rw [Nat.testBit_lor]
    have h2 : Nat.testBit IN_ONLYDIR 24 = true := by decide
    simp [h2]
  rcases Nat.eq_zero_or_pos (m ||| IN_ONLYDIR) with h | h
  · rw [h] at h1
    simp [Nat.zero_testBit] at h1
  · exact h

/-- C8 evaluated at the failing input: the `directories` loop ORs
`IN_ONLYDIR` into the mask before testing `0 == mask` (api.cc:271-274),
so the mask is never zero and the skip never fires.  A directory element
whose `events` array yields the empty event mask is therefore NOT
skipped: a Directory rule with mask `IN_ONLYDIR` is emitted and its URI
is inserted into the directory URI set.  (The second half of the claim,
that every emitted directory rule ORs the only-if-directory flag, does
hold, as the first conjunct shows for every events array.) -/
theorem C8_empty_dir_mask_not_skipped :
    (∀ evs : List String, 0 < events2mask evs ||| IN_ONLYDIR) ∧
    (Load ⟨"u", "c", "m"⟩ [⟨some "/tmp/d", [], none, none, none, none⟩] []).all =
      [{ type := EType.directory, uri := "/tmp/d", mask := IN_ONLYDIR, wd := -1,
         user := "u", cmd := "c", msg := "m", pattern := "", error := "",
         warning := "", hasHandler := false }] ∧
    (Load ⟨"u", "c", "m"⟩ [⟨some "/tmp/d", [], none, none, none, none⟩] []).dirUris =
      ["/tmp/d"] :=
  ⟨fun evs => lor_onlydir_pos (events2mask evs), by decide, by decide⟩

theorem lor_delete_self_and_ne_zero (m : Nat) :
    (m ||| IN_DELETE_SELF) &&& IN_DELETE_SELF ≠ 0 := by
  intro h
  have h1 : Nat.testBit ((m ||| IN_DELETE_SELF) &&& IN_DELETE_SELF) 10 = true := by
    rw [Nat.testBit_and, Nat.testBit_lor]
    have h2 : Nat.testBit IN_DELETE_SELF 10 = true := by decide
    simp [h2]
  rw [h] at h1
  simp [Nat.zero_testBit] at h1

/-- The per-file-rule obligations of C7, relative to a surrounding rule
list: a `modify` mask implies a synthetic parent-directory rule exists,
and a `delete` mask carries `delete_self`. -/
def FileRuleOk (allL : List Entry) (e : Entry) : Prop :=
  (e.mask &&& IN_MODIFY ≠ 0 → ∀ p, parentOf e.uri = some p →
    ∃ d, d ∈ allL ∧ d.type = EType.directory ∧ d.uri = p ∧
      d.mask &&& IN_CREATE ≠ 0 ∧ d.hasHandler = true) ∧
  (e.mask &&& IN_DELETE ≠ 0 → e.mask &&& IN_DELETE_SELF ≠ 0)

def LoaderInv (s : Entries) : Prop :=
  ∀ e, e ∈ s.all → e.type = EType.file → FileRuleOk s.all e

theorem fileRuleOk_mono {l1 l2 : List Entry} {e : Entry}
    (hsub : ∀ d, d ∈ l1 → d ∈ l2) (h : FileRuleOk l1 e) : FileRuleOk l2 e := by
  refine ⟨fun hm p hp => ?_, h.2⟩
  obtain ⟨d, hd, h1, h2, h3, h4⟩ := h.1 hm p hp
  exact ⟨d, hsub d hd, h1, h2, h3, h4⟩

theorem Add_all (dft : Defaults) (s : Entries) (a_type : EType) (a_object : CfgObj)
    (a_uri : String) (a_mask : Nat) (a_handler : Bool) :
    (Add dft s a_type a_object a_uri a_mask a_handler).all =
      s.all ++ [{
        type := a_type, uri := a_uri, mask := a_mask, wd := -1,
        user := (a_object.user).getD dft.user,
        cmd := (a_object.command).getD dft.command,
        msg := (a_object.message).getD dft.message,
        pattern := (a_object.pattern).getD "",
        error := "", warning := "", hasHandler := a_handler }] := by
  unfold Add
  cases a_type <;> cases a_handler <;> rfl

theorem loadDir_mem (dft : Defaults) (o : CfgObj) (s : Entries) :
    ∀ d, d ∈ s.all → d ∈ (loadDir dft s o).all := by
  intro d hd
  unfold loadDir
  rcases o with ⟨ouri, oev, ou, oc, om, op⟩
  cases ouri with
  | none => exact hd
  | some uri =>
    dsimp only
    split
    · exact hd
    · rw [Add_all]
      exact List.mem_append_left _ hd

theorem loadDir_new_dir (dft : Defaults) (o : CfgObj) (s : Entries) :
    ∀ d, d ∈ (loadDir dft s o).all → d ∈ s.all ∨ d.type = EType.directory := by
  intro d hd
  unfold loadDir at hd
  rcases o with ⟨ouri, oev, ou, oc, om, op⟩
  cases ouri with
  | none => exact Or.inl hd
  | some uri =>
    dsimp only at hd
    split at hd
    · exact Or.inl hd
    · rw [Add_all] at hd
      rcases List.mem_append.mp hd with h | h
      · exact Or.inl h
      · right
        rw [List.mem_singleton.mp h]

theorem loadDir_inv (dft : Defaults) (o : CfgObj) {s : Entries}
    (h : LoaderInv s) : LoaderInv (loadDir dft s o) := by
  intro e he htype
  rcases loadDir_new_dir dft o s e he with hold | hdir
  · exact fileRuleOk_mono (loadDir_mem dft o s) (h e hold htype)
  · rw [htype] at hdir
    cases hdir

theorem loadFileCore_mem (dft : Defaults) (o : CfgObj) (uri : String)
    (mask : Nat) (s : Entries) :
    ∀ d, d ∈ s.all → d ∈ (loadFileCore dft o uri mask s).all := by
  intro d hd
  unfold loadFileCore
  by_cases hmod : mask &&& IN_MODIFY ≠ 0
  · rw [if_pos hmod]
    cases hpar : parentOf uri with
    | none => exact hd
    | some directory =>
      rw [Add_all, Add_all]
      exact List.mem_append_left _ (List.mem_append_left _ hd)
  · rw [if_neg hmod, Add_all]
    exact List.mem_append_left _ hd

theorem loadFileCore_inv (dft : Defaults) (o : CfgObj) (uri : String)
    (mask : Nat) {s : Entries} (h : LoaderInv s)
    (hds : mask &&& IN_DELETE ≠ 0 → mask &&& IN_DELETE_SELF ≠ 0) :
    LoaderInv (loadFileCore dft o uri mask s) := by
  intro e he htype
  have hmono := loadFileCore_mem dft o uri mask s
  by_cases hmod : mask &&& IN_MODIFY ≠ 0
  · rw [loadFileCore, if_pos hmod] at he
    cases hpar : parentOf uri with
    | none =>
      rw [hpar] at he
      exact fileRuleOk_mono hmono (h e he htype)
    | some directory =>
      rw [hpar, Add_all, Add_all] at he
      rcases List.mem_append.mp he with he1 | he1
      · rcases List.mem_append.mp he1 with he2 | he2
        · exact fileRuleOk_mono hmono (h e he2 htype)
        · exfalso
          have hdt : e.type = EType.directory := by
            rw [List.mem_singleton.mp he2]
          rw [htype] at hdt
          cases hdt
      · rw [List.mem_singleton.mp he1]
        constructor
        · intro _ p hp
          refine ⟨?_, ?_, ?_, ?_, ?_, ?_⟩
          · exact { type := EType.directory, uri := directory, mask := IN_CREATE,
                    wd := -1, user := (o.user).getD dft.user,
                    cmd := (o.command).getD dft.command,
                    msg := (o.message).getD dft.message,
                    pattern := (o.pattern).getD "",
                    error := "", warning := "", hasHandler := true }
          · rw [loadFileCore, if_pos hmod, hpar, Add_all, Add_all]
            exact List.mem_append_left _
              (List.mem_append_right _ (List.mem_singleton_self _))
          · rfl
          · show directory = p
            have hpp : some directory = some p := by
              dsimp only at hp
              rw [← hpar, hp]
            simpa using hpp
          · show IN_CREATE &&& IN_CREATE ≠ 0
            decide
          · rfl
        · intro hdel
          exact hds hdel
  · rw [loadFileCore, if_neg hmod, Add_all] at he
    rcases List.mem_append.mp he with he1 | he1
    · exact fileRuleOk_mono hmono (h e he1 htype)
    · rw [List.mem_singleton.mp he1]
      exact ⟨fun hm _ _ => absurd hm hmod, fun hdel => hds hdel⟩

theorem loadFile_inv (dft : Defaults) (o : CfgObj) {s : Entries}
    (h : LoaderInv s) : LoaderInv (loadFile dft s o) := by
  unfold loadFile
  rcases o with ⟨ouri, oev, ou, oc, om, op⟩
  cases ouri with
  | none => exact h
  | some uri =>
    dsimp only
    split
    · exact h
    · refine loadFileCore_inv _ _ _ _ h ?_
      by_cases hd0 : events2mask oev &&& IN_DELETE ≠ 0
      · rw [if_pos hd0]
        intro _
        exact lor_delete_self_and_ne_zero _
      · rw [if_neg hd0]
        intro hdel
        exact absurd hdel hd0

theorem foldl_loadDir_inv (dft : Defaults) (dirs : List CfgObj) :
    ∀ {s : Entries}, LoaderInv s → LoaderInv (dirs.foldl (loadDir dft) s) := by
  induction dirs with
  | nil => intro s h; exact h
  | cons o rest ih => intro s h; exact ih (loadDir_inv dft o h)

theorem foldl_loadFile_inv (dft : Defaults) (files : List CfgObj) :
    ∀ {s : Entries}, LoaderInv s → LoaderInv (files.foldl (loadFile dft) s) := by
  induction files with
  | nil => intro s h; exact h
  | cons o rest ih => intro s h; exact ih (loadFile_inv dft o h)

/-- C7: after loading a configuration, every file rule whose mask
includes `modify` and whose URI has a parent path component is covered
by a synthetic directory rule in `all` (parent URI, mask containing
`create`, re-registration handler attached), and every file rule whose
mask includes `delete` also includes `delete_self`. -/
theorem C7_synthetic_dir_and_delete_promotion
    (dft : Defaults) (dirs files : List CfgObj) (e : Entry) (p : String)
    (he : e ∈ (Load dft dirs files).all) (hfile : e.type = EType.file) :
    (e.mask &&& IN_MODIFY ≠ 0 → parentOf e.uri = some p →
      ∃ d, d ∈ (Load dft dirs files).all ∧ d.type = EType.directory ∧
        d.uri = p ∧ d.mask &&& IN_CREATE ≠ 0 ∧ d.hasHandler = true) ∧
    (e.mask &&& IN_DELETE ≠ 0 → e.mask &&& IN_DELETE_SELF ≠ 0) := by
  have hinv : LoaderInv (Load dft dirs files) := by
    unfold Load
    refine foldl_loadFile_inv dft files (foldl_loadDir_inv dft dirs ?_)
    intro e he _
    cases he
  have h := hinv e he hfile
  exact ⟨fun hm hp => h.1 hm p hp, h.2⟩

/-- Witness for C7 at a concrete configuration: one file element with
events `["modify", "delete"]` and URI `"/d/f"`. -/
theorem C7_witness :
    (∃ d, d ∈ (Load ⟨"u", "c", "m"⟩ []
        [⟨some "/d/f", ["modify", "delete"], none, none, none, none⟩]).all ∧
      d.type = EType.directory ∧ d.uri = "/d" ∧
      d.mask &&& IN_CREATE ≠ 0 ∧ d.hasHandler = true) ∧
    ((Load ⟨"u", "c", "m"⟩ []
        [⟨some "/d/f", ["modify", "delete"], none, none, none, none⟩]).all.getD 1 dEntry).mask
      &&& IN_DELETE_SELF ≠ 0 := by
  refine ⟨?_, ?_⟩
  · exact (C7_synthetic_dir_and_delete_promotion ⟨"u", "c", "m"⟩ []
      [⟨some "/d/f", ["modify", "delete"], none, none, none, none⟩]
      ((Load ⟨"u", "c", "m"⟩ []
        [⟨some "/d/f", ["modify", "delete"], none, none, none, none⟩]).all.getD 1 dEntry)
      "/d" (by decide) (by decide)).1 (by decide) (by decide)
  · exact (C7_synthetic_dir_and_delete_promotion ⟨"u", "c", "m"⟩ []
      [⟨some "/d/f", ["modify", "delete"], none, none, none, none⟩]
      ((Load ⟨"u", "c", "m"⟩ []
        [⟨some "/d/f", ["modify", "delete"], none, none, none, none⟩]).all.getD 1 dEntry)
      "/d" (by decide) (by decide)).2 (by decide)

/-! ## Event record and process spawner (api.cc:903-1050, `API::Spawn`)

`API::Event` reduced to the fields the spawner and handler read; the
timestamp is carried as an opaque pre-formatted string. -/

structure Event where
  mask : Nat
  objectName : String
  parentName : Option String
  name : String
  ts : String
deriving DecidableEq, Repr

def API_DEFAULT_PATH : String := "/usr/bin:/usr/local/bin"

/-- The `vars` placeholder map of `API::Spawn` (api.cc:907-915).  Note
both `CASPER_INOTIFY_MSG` and `CASPER_INOTIFY_CMD` are bound to the raw
`a_entry.msg_` / `a_entry.cmd_` templates; the expanded strings are
computed afterwards into the local `cmd` / `msg` variables and never
written back into the map.  (The C++ `std::map` is keyed by `const
char*` pointers, so its iteration order is unspecified; the keys are
pairwise distinct so only membership is observable.) -/
def SpawnVars (hostname : String) (a_entry : Entry) (a_event : Event) :
    List (String × String) := [
  ("CASPER_INOTIFY_EVENT", a_event.name),
  ("CASPER_INOTIFY_OBJECT", if a_event.mask &&& IN_ISDIR ≠ 0 then "directory" else "file"),
  ("CASPER_INOTIFY_NAME", a_event.objectName),
  ("CASPER_INOTIFY_DATETIME", a_event.ts),
  ("CASPER_INOTIFY_HOSTNAME", hostname),
  ("CASPER_INOTIFY_MSG", a_entry.msg),
  ("CASPER_INOTIFY_CMD", a_entry.cmd)]

/-- The expansion loop of `API::Spawn` (api.cc:928-933): one `Replace`
per placeholder, `"${" + key + "}"` replaced by the bound value. -/
def ExpandAll (vars : List (String × String)) (s : String) : String :=
  vars.foldl (fun acc kv => Replace acc ("$\x7b" ++ kv.1 ++ "\x7d") kv.2) s

/-- C3 counterexample: for an entry whose message template is the
placeholder `${CASPER_INOTIFY_EVENT}` and an event named `"created"`,
the map binds `CASPER_INOTIFY_MSG` to the raw template, which differs
from the expanded message — contradicting the claim that `_MSG` is
bound to the message after placeholder expansion. -/
theorem C3_counterexample :
    (List.lookup "CASPER_INOTIFY_MSG"
        (SpawnVars "h"
          ⟨EType.file, "/f", 0, 3, "u", "c", "${CASPER_INOTIFY_EVENT}", "", "", "", false⟩
          ⟨IN_CREATE, "f", some "/d", "created", "t"⟩) =
      some "${CASPER_INOTIFY_EVENT}") ∧
    (ExpandAll
        (SpawnVars "h"
          ⟨EType.file, "/f", 0, 3, "u", "c", "${CASPER_INOTIFY_EVENT}", "", "", "", false⟩
          ⟨IN_CREATE, "f", some "/d", "created", "t"⟩)
        "${CASPER_INOTIFY_EVENT}" = "created") ∧
    ("${CASPER_INOTIFY_EVENT}" : String) ≠ "created" := by
  refine ⟨by decide, by decide, by decide⟩

/-- C3 (amended): the placeholder map binds `CASPER_INOTIFY_MSG` to the
message template BEFORE expansion and `CASPER_INOTIFY_CMD` to the
command template before expansion; the expanded strings live only in
the local `cmd` / `msg` variables passed to `execlp` and syslog. -/
theorem C3_msg_cmd_bound_unexpanded (hostname : String) (a_entry : Entry)
    (a_event : Event) :
    List.lookup "CASPER_INOTIFY_MSG" (SpawnVars hostname a_entry a_event) =
      some a_entry.msg ∧
    List.lookup "CASPER_INOTIFY_CMD" (SpawnVars hostname a_entry a_event) =
      some a_entry.cmd := by
  constructor <;> rfl

/-! ## Child environment after privilege drop (api.cc:1000-1031)

After `clearenv()` succeeds the environment is empty.  The block that
rebuilds it — six fixed variables and then every `CASPER_INOTIFY_*`
variable from the placeholder map — is guarded by
`0 != pwd->pw_uid`, so when the target user resolves to root (uid 0)
nothing at all is set.  Success of every `setenv` is assumed (the claim
conditions on the switches succeeding). -/

structure Passwd where
  uid : Nat
  gid : Nat
  name : String
  dir : String
  shell : String
deriving DecidableEq, Repr

def ChildEnv (pwd : Passwd) (vars : List (String × String)) :
    List (String × String) :=
  if pwd.uid ≠ 0 then
    [("PATH", API_DEFAULT_PATH), ("LOGNAME", pwd.name), ("USER", pwd.name),
     ("USERNAME", pwd.name), ("HOME", pwd.dir), ("SHELL", pwd.shell)] ++ vars
  else []

/-- C2 counterexample: when the resolved uid is 0 (root) the guarded
block is skipped entirely, so no `CASPER_INOTIFY_*` variable from the
placeholder map reaches the child's environment. -/
theorem C2_counterexample :
    ChildEnv ⟨0, 0, "root", "/root", "/bin/sh"⟩
        [("CASPER_INOTIFY_MSG", "hello")] = [] ∧
    ("CASPER_INOTIFY_MSG", "hello") ∉
      ChildEnv ⟨0, 0, "root", "/root", "/bin/sh"⟩
        [("CASPER_INOTIFY_MSG", "hello")] := by
  refine ⟨by decide, by decide⟩

/-- C2 (amended): every `CASPER_INOTIFY_*` variable from the placeholder
map is set in the child's environment when the resolved uid is non-zero;
for uid 0 the environment stays empty after `clearenv` (counterexample
above). -/
theorem C2_vars_set_when_not_root (pwd : Passwd)
    (vars : List (String × String)) (kv : String × String)
    (huid : pwd.uid ≠ 0) (hkv : kv ∈ vars) :
    kv ∈ ChildEnv pwd vars := by
  unfold ChildEnv
  rw [if_pos huid]
  exact List.mem_append_right _ hkv

/-- Witness for C2's amended theorem at uid 1000. -/
theorem C2_vars_set_when_not_root_witness :
    ("CASPER_INOTIFY_MSG", "hello") ∈
      ChildEnv ⟨1000, 1000, "u", "/home/u", "/bin/sh"⟩
        [("CASPER_INOTIFY_MSG", "hello")] :=
  C2_vars_set_when_not_root ⟨1000, 1000, "u", "/home/u", "/bin/sh"⟩
    [("CASPER_INOTIFY_MSG", "hello")] ("CASPER_INOTIFY_MSG", "hello")
    (by decide) (by decide)

/-! ## Registration and tracking (api.cc:391-435, 844-882)

`inotify_add_watch` is an external effect: its result (`-1` on failure,
the assigned watch descriptor otherwise) and the `errno` text are oracle
parameters.  `Track(entry, true)` is `good_[wd] = entry` (a `std::map`
insert-or-assign); `Track(entry, false)` is `bad_.push_back(entry)`;
`Untrack` erases the entry's key from `good_`, pushes the entry onto
`bad_`, resets `wd` to the sentinel and records the warning reason. -/

/-- `API::Register` (api.cc:391-405) acting on an entry, with the kernel
result `wdres` and the `": errno - strerror"` text as oracles. -/
def Register (wdres : Int) (errS : String) (e : Entry) : Entry × Bool :=
  if wdres = -1 then
    ({ e with
        wd := wdres,
        error := "An error occurred while registering an event for " ++ e.uri ++ errS },
      false)
  else
    ({ e with wd := wdres, error := "", warning := "" }, true)

/-- `std::map::operator[]` followed by assignment: replace the value at
the key if present, else insert. -/
def MapSet (m : List (Int × Nat)) (k : Int) (v : Nat) : List (Int × Nat) :=
  if m.any (fun p => p.1 == k) then
    m.map (fun p => if p.1 == k then (k, v) else p)
  else m ++ [(k, v)]

/-- `Track(entry, true)` for the entry at index `idx` (api.cc:846-852). -/
def TrackGood (s : Entries) (idx : Nat) : Entries :=
  { s with good := MapSet s.good (entAt s idx).wd idx }

/-- `Track(entry, false)` (api.cc:853-860). -/
def TrackBad (s : Entries) (idx : Nat) : Entries :=
  { s with bad := s.bad ++ [idx] }

/-- `API::Untrack` (api.cc:871-882) for the entry at index `idx`. -/
def Untrack (s : Entries) (idx : Nat) (a_reason : String) : Entries :=
  match s.all[idx]? with
  | none => s
  | some e =>
    { s with
      good := s.good.filter (fun p => p.1 != e.wd),
      bad := s.bad ++ [idx],
      all := s.all.set idx { e with wd := -1, warning := a_reason } }

/-- One iteration of the registration pass of `API::Watch`
(api.cc:342-351): `Register` the entry at index `i`, then `Track` it as
good or bad according to the outcome. -/
def RegStep (kernel : Nat → Int) (errS : String) (s : Entries) (i : Nat) : Entries :=
  match s.all[i]? with
  | none => s
  | some e =>
    let r := Register (kernel i) errS e
    let s1 : Entries := { s with all := s.all.set i r.1 }
    if r.2 then TrackGood s1 i else TrackBad s1 i

def RegPass (kernel : Nat → Int) (errS : String) : Entries → List Nat → Entries
  | s, [] => s
  | s, i :: rest => RegPass kernel errS (RegStep kernel errS s i) rest

/-- The whole registration pass over `entries_.all_`. -/
def RegisterAll (kernel : Nat → Int) (errS : String) (s : Entries) : Entries :=
  RegPass kernel errS s (List.range s.all.length)

/-! ## Re-registration handler (api.cc:1058-1110, `API::Handler`) -/

/-- `parent_object_name + '/' + object_name` (api.cc:1072). -/
def candidateUri (e : Event) : String :=
  (e.parentName).getD "" ++ "/" ++ e.objectName

/-- The `bad_` search loop of `API::Handler` (api.cc:1084-1092): find
the first entry whose URI equals the candidate, returning it together
with `bad_` after `erase` of that position. -/
def ExtractBad (allL : List Entry) (uri : String) : List Nat → Option (Nat × List Nat)
  | [] => none
  | i :: rest =>
    if (allL.getD i dEntry).uri = uri then some (i, rest)
    else
      match ExtractBad allL uri rest with
      | none => none
      | some (j, rest2) => some (j, i :: rest2)

/-- `API::Handler` (api.cc:1058-1110).  Rejects events that are not a
file creation; rejects candidates outside the user file URI set;
rejects when no rule in `bad_` matches; otherwise re-registers the
matching rule (with kernel oracle `regWd`), tracking it as good on
success (returning `true`) or back onto `bad_` on failure (returning
`false`). -/
def Handler (regWd : Int) (errS : String) (s : Entries) (e : Event) :
    Bool × Entries :=
  if ¬ (e.mask &&& IN_ISDIR = 0 ∧ e.mask &&& IN_CREATE ≠ 0) then (false, s)
  else
    let uri := candidateUri e
    if ¬ (s.fileUris.contains uri) then (false, s)
    else
      match ExtractBad s.all uri s.bad with
      | none => (false, s)
      | some (idx, bad2) =>
        match s.all[idx]? with
        | none => (false, s)
        | some ent =>
          let r := Register regWd errS ent
          let s1 : Entries := { s with all := s.all.set idx r.1, bad := bad2 }
          if r.2 then (true, TrackGood s1 idx)
          else (false, TrackBad s1 idx)

/-! ## Dispatch loop (api.cc:440-609, `API::Wait`)

One parsed kernel record is `{wd, mask, name}` with `name = none` when
the record's `len` field is `0`.  The `actions` vector of `API::Wait` is
declared OUTSIDE the record loop (api.cc:450) and `actions.clear()`
(api.cc:605) sits after the spawn/untrack steps, so the two `continue`
paths before the pushes leave it untouched and — crucially — the
handler-skip `continue` (api.cc:586-592) leaves the freshly pushed
actions in place for the NEXT record.  `fnmatch` is an oracle
parameter; the per-record kernel registration result for a potential
handler invocation is the oracle `regWd`. -/

structure KRec where
  wd : Int
  mask : Nat
  name : Option String
deriving DecidableEq, Repr

/-- The action pushes of api.cc:548-568, appended to the current
(possibly non-empty) `actions` vector, in source order. -/
def ActionsPush (mask : Nat) (acc : List String) : List String :=
  let a0 := acc
  let a1 := if mask &&& IN_OPEN ≠ 0 then a0 ++ ["open"] else a0
  let a2 := if mask &&& IN_CLOSE ≠ 0 then a1 ++ ["closed"] else a1
  let a3 := if mask &&& IN_ACCESS ≠ 0 then a2 ++ ["accessed"] else a2
  let a4 := if mask &&& IN_CREATE ≠ 0 then a3 ++ ["created"] else a3
  let a5 := if mask &&& IN_MODIFY ≠ 0 then a4 ++ ["modified"] else a4
  let a6 := if mask &&& IN_DELETE ≠ 0 ∨ mask &&& IN_DELETE_SELF ≠ 0 then a5 ++ ["deleted"] else a5
  if mask &&& IN_IGNORED ≠ 0 then a6 ++ ["ignored"] else a6

/-- `e.name_` composition (api.cc:570-577): join the (entire) actions
vector with `", "`, or `"???"` when it is empty. -/
def ComposeName (acts : List String) : String :=
  if acts.isEmpty then "???" else String.intercalate ", " acts

/-- `good_.find(event->wd)` (api.cc:455). -/
def FindGood (s : Entries) (w : Int) : Option Nat :=
  (s.good.find? (fun p => p.1 == w)).map (fun p => p.2)

/-- Outcome of one record that reached the name-composition step:
its composed action name and whether `Spawn` was invoked for it. -/
structure RecOut where
  ename : String
  spawned : Bool
deriving DecidableEq, Repr

/-- Steps 6-7 of the per-record pipeline (api.cc:593-607): ignore or
spawn, then `Untrack` on the kernel's `ignored` flag, then
`actions.clear()`. -/
def WaitFinish (s : Entries) (idx : Nat) (r : KRec) (ename : String) :
    Entries × List String × Option RecOut :=
  let spawned := ¬ (ename = "???" ∨ ename = "") ∧ r.mask &&& IN_IGNORED = 0
  let s2 :=
    if r.mask &&& IN_IGNORED ≠ 0 then
      Untrack s idx "event was removed explicitly or automatically!"
    else s
  (s2, [], some ⟨ename, decide spawned⟩)

/-- One record of the `while` loop of `API::Wait` (api.cc:452-608),
threading the rule table and the loop-scoped `actions` vector.  The
third component is `none` when the record was skipped before step 4
(unknown descriptor or pattern mismatch). -/
def WaitStep (fnm : String → String → Bool) (regWd : Int) (errS ts : String)
    (s : Entries) (acc : List String) (r : KRec) :
    Entries × List String × Option RecOut :=
  match FindGood s r.wd with
  | none => (s, acc, none)
  | some idx =>
    let ent := entAt s idx
    let objectName := (r.name).getD ent.uri
    let parentName : Option String :=
      match r.name with
      | some _ => some ent.uri
      | none => none
    if ent.pattern ≠ "" ∧ fnm ent.pattern objectName = false then (s, acc, none)
    else
      let acc2 := ActionsPush r.mask acc
      let ename := ComposeName acc2
      let e : Event := ⟨r.mask, objectName, parentName, ename, ts⟩
      if ent.hasHandler then
        let h := Handler regWd errS s e
        if h.1 = false then (h.2, acc2, some ⟨ename, false⟩)
        else WaitFinish h.2 idx r ename
      else WaitFinish s idx r ename

/-- The record loop over a parsed buffer; `regW k` is the kernel oracle
for a handler invocation on the `k`-th record.  Returns the final rule
table and the per-record outcomes. -/
def WaitRun (fnm : String → String → Bool) (regW : Nat → Int) (errS ts : String) :
    Nat → Entries → List String → List KRec → Entries × List (Option RecOut)
  | _, s, _, [] => (s, [])
  | k, s, acc, r :: rest =>
    let t := WaitStep fnm (regW k) errS ts s acc r
    let w := WaitRun fnm regW errS ts (k + 1) t.1 t.2.1 rest
    (w.1, t.2.2 :: w.2)

/-! ## C1: return value of the re-registration handler -/

/-- A synthetic directory rule (handler attached) watching `"/d"`,
currently good with descriptor 3. -/
def exSynthDir : Entry := ⟨EType.directory, "/d", IN_CREATE, 3, "u", "c", "m", "", "", "", true⟩

/-- The user file rule for `"/d/f"`, unregistered and waiting in `bad`. -/
def exFileRule : Entry := ⟨EType.file, "/d/f", IN_MODIFY, -1, "u", "c", "m", "", "", "", false⟩

def exState1 : Entries := ⟨[exSynthDir, exFileRule], [(3, 0)], [1], [], ["/d/f"]⟩

/-- C1 counterexample: on a successful re-registration the handler
returns TRUE, not false (api.cc:1099-1103), and the dispatch loop then
falls through (api.cc:586-598), so the synthetic rule DOES spawn: the
record's outcome is `spawned = true` on the synthetic rule. -/
theorem C1_counterexample :
    (Handler 7 "e" exState1 ⟨IN_CREATE, "f", some "/d", "created", "t"⟩).1 = true ∧
    (WaitStep (fun _ _ => true) 7 "e" "t" exState1 [] ⟨3, IN_CREATE, some "f"⟩).2.2 =
      some ⟨"created", true⟩ := by
  refine ⟨by decide, by decide⟩

/-- C1 (amended): the handler returns `false` on every rejection path
(event not a file-create, candidate URI not a requested file, no
matching rule in `bad`) and on registration failure, but returns `true`
exactly when re-registration succeeds — in which case the record falls
through to the spawn stage of the dispatch loop. -/
theorem C1_handler_true_iff_reregistered (regWd : Int) (errS : String)
    (s : Entries) (e : Event) :
    (Handler regWd errS s e).1 = true ↔
      ((e.mask &&& IN_ISDIR = 0 ∧ e.mask &&& IN_CREATE ≠ 0) ∧
        s.fileUris.contains (candidateUri e) = true ∧
        (∃ idx rest, ExtractBad s.all (candidateUri e) s.bad = some (idx, rest) ∧
          (s.all[idx]?).isSome = true) ∧
        regWd ≠ -1) := by
  unfold Handler
  by_cases h1 : e.mask &&& IN_ISDIR = 0 ∧ e.mask &&& IN_CREATE ≠ 0
  · rw [if_neg (not_not_intro h1)]
    dsimp only
    by_cases h2 : s.fileUris.contains (candidateUri e) = true
    · have h2m : candidateUri e ∈ s.fileUris := by simpa using h2
      rw [if_neg (by simpa using not_not_intro h2)]
      cases hex : ExtractBad s.all (candidateUri e) s.bad with
      | none => simp [h1, h2, h2m, hex]
      | some pr =>
        obtain ⟨idx, bad2⟩ := pr
        cases hidx : s.all[idx]? with
        | none => simp [h1, h2, h2m, hex, hidx]
        | some ent =>
          by_cases hw : regWd = -1
          · simp [Register, hw, h1, h2, h2m, hex, hidx]
          · simp [Register, hw, h1, h2, h2m, hex, hidx, TrackGood]
    · have h2n : candidateUri e ∉ s.fileUris := by simpa using h2
      rw [if_pos (by simpa using h2)]
      simp [h1, h2n]
  · rw [if_pos h1]
    simp [h1]

/-! ## C10: the handler's rejection paths change no state -/

theorem extractBad_none_of_no_match {allL : List Entry} {uri : String} :
    ∀ {bad : List Nat}, (∀ i ∈ bad, (allL.getD i dEntry).uri ≠ uri) →
      ExtractBad allL uri bad = none := by
  intro bad
  induction bad with
  | nil => intro _; rfl
  | cons i rest ih =>
    intro h
    unfold ExtractBad
    rw [if_neg (h i (List.mem_cons_self i rest))]
    rw [ih (fun j hj => h j (List.mem_cons_of_mem i hj))]

/-- C10: whenever the re-registration handler is invoked with an event
it rejects — IS-DIR flag set or `create` missing, or the candidate URI
not in the user file URI set, or no rule in `bad` with the candidate's
URI — it returns `false` and the whole rule table (`all`, `good`,
`bad`, both URI sets, hence every rule's `wd`, `error`, `warning`) is
returned unchanged. -/
theorem C10_reject_paths_frame (regWd : Int) (errS : String) (s : Entries)
    (e : Event)
    (h : (e.mask &&& IN_ISDIR ≠ 0 ∨ e.mask &&& IN_CREATE = 0) ∨
      s.fileUris.contains (candidateUri e) = false ∨
      (∀ i ∈ s.bad, (s.all.getD i dEntry).uri ≠ candidateUri e)) :
    Handler regWd errS s e = (false, s) := by
  by_cases h1 : e.mask &&& IN_ISDIR = 0 ∧ e.mask &&& IN_CREATE ≠ 0
  · rw [Handler, if_neg (not_not_intro h1)]
    dsimp only
    rcases h with h | h | h
    · rcases h with h | h
      · exact absurd h1.1 (by simpa using h)
      · exact absurd h h1.2
    · rw [if_pos (by rw [h]; decide)]
    · by_cases h2 : s.fileUris.contains (candidateUri e) = true
      · rw [if_neg (by simpa using not_not_intro h2)]
        rw [extractBad_none_of_no_match h]
      · rw [if_pos (by simpa using h2)]
  · rw [Handler, if_pos h1]

/-- Witness for C10: a rejected event (directory bit set). -/
theorem C10_reject_paths_frame_witness :
    Handler 7 "e" exState1 ⟨IN_ISDIR ||| IN_CREATE, "f", some "/d", "created", "t"⟩ =
      (false, exState1) :=
  C10_reject_paths_frame 7 "e" exState1
    ⟨IN_ISDIR ||| IN_CREATE, "f", some "/d", "created", "t"⟩
    (Or.inl (Or.inl (by decide)))

/-! ## C5: composed action names across a multi-record buffer -/

/-- A synthetic directory rule (handler) good under descriptor 1. -/
def ex5Synth : Entry := ⟨EType.directory, "/d", IN_CREATE, 1, "u", "c", "m", "", "", "", true⟩

/-- A plain file rule good under descriptor 2. -/
def ex5Plain : Entry := ⟨EType.file, "/f", IN_OPEN, 2, "u", "c", "m", "", "", "", false⟩

def ex5State : Entries := ⟨[ex5Synth, ex5Plain], [(1, 0), (2, 1)], [], [], []⟩

/-- C5 evaluated at the failing input: with an empty starting `actions`
vector, a single record's composed name is exactly the canonical tokens
of its mask (`ActionsPush`/`ComposeName`, third and fourth conjuncts).
But `actions.clear()` (api.cc:605) is bypassed by the handler-skip
`continue` (api.cc:586-592): after record 1 (a create on the synthetic
directory rule whose handler rejects, leaving `"created"` in the
vector), record 2 with mask `IN_OPEN` composes `"created, open"` rather
than the `"open"` the claim requires for every record of a multi-record
buffer. -/
theorem C5_stale_actions_leak :
    (WaitRun (fun _ _ => true) (fun _ => -1) "e" "t" 0 ex5State []
        [⟨1, IN_CREATE, some "x"⟩, ⟨2, IN_OPEN, none⟩]).2 =
      [some ⟨"created", false⟩, some ⟨"created, open", true⟩] ∧
    ActionsPush IN_OPEN [] = ["open"] ∧
    ComposeName (ActionsPush IN_OPEN []) = "open" ∧
    ("created, open" : String) ≠ "open" := by
  refine ⟨by decide, by decide, by decide, by decide⟩

/-! ## C6: the good/bad partition invariant -/

def goodIdxs (s : Entries) : List Nat := s.good.map (fun p => p.2)

def goodKeys (s : Entries) : List Int := s.good.map (fun p => p.1)

/-- The full well-formedness invariant of the rule table at a dispatch
boundary: `good` pairs carry the entry's live descriptor (never the
sentinel) at an in-range index with pairwise distinct keys, `bad`
indices are in range with sentinel `wd` and are pairwise distinct, and
every index is covered by `good` or `bad`. -/
def WdInv (s : Entries) : Prop :=
  (∀ p ∈ s.good, p.2 < s.all.length ∧ (s.all.getD p.2 dEntry).wd = p.1 ∧ p.1 ≠ -1) ∧
  (goodKeys s).Nodup ∧
  (∀ i ∈ s.bad, i < s.all.length ∧ (s.all.getD i dEntry).wd = -1) ∧
  s.bad.Nodup ∧
  (∀ i, i < s.all.length → i ∈ goodIdxs s ∨ i ∈ s.bad)

/-- The partition stated by the claim: a rule is in `good` iff its `wd`
is not the sentinel, `good` and `bad` are disjoint, and every rule of
`all` is in one of them. -/
def GoodBadPartition (s : Entries) : Prop :=
  ∀ i, i < s.all.length →
    ((i ∈ goodIdxs s ↔ (s.all.getD i dEntry).wd ≠ -1) ∧
      ¬ (i ∈ goodIdxs s ∧ i ∈ s.bad) ∧
      (i ∈ goodIdxs s ∨ i ∈ s.bad))

instance (s : Entries) : Decidable (WdInv s) := by
  unfold WdInv
  infer_instance

instance (s : Entries) : Decidable (GoodBadPartition s) := by
  unfold GoodBadPartition
  infer_instance

theorem getD_set_self (l : List Entry) {i : Nat} (a : Entry) (h : i < l.length) :
    (l.set i a).getD i dEntry = a := by
  simp [List.getD_eq_getElem?_getD, List.getElem?_set_self, h]

theorem getD_set_ne (l : List Entry) {i j : Nat} (a : Entry) (h : i ≠ j) :
    (l.set i a).getD j dEntry = l.getD j dEntry := by
  simp [List.getD_eq_getElem?_getD, List.getElem?_set_ne h]

theorem mem_goodIdxs {s : Entries} {i : Nat} :
    i ∈ goodIdxs s ↔ ∃ p, p ∈ s.good ∧ p.2 = i := by
  simp [goodIdxs, List.mem_map, and_comm]

theorem wdInv_partition {s : Entries} (h : WdInv s) : GoodBadPartition s := by
  obtain ⟨hg, _, hb, _, hcov⟩ := h
  intro i hi
  refine ⟨⟨?_, ?_⟩, ?_, hcov i hi⟩
  · intro hgm
    obtain ⟨p, hp, hpi⟩ := mem_goodIdxs.mp hgm
    have := hg p hp
    rw [hpi] at this
    rw [this.2.1]
    exact this.2.2
  · intro hwd
    rcases hcov i hi with hgm | hbm
    · exact hgm
    · exact absurd (hb i hbm).2 hwd
  · rintro ⟨hgm, hbm⟩
    obtain ⟨p, hp, hpi⟩ := mem_goodIdxs.mp hgm
    have h1 := hg p hp
    rw [hpi] at h1
    exact h1.2.2 (h1.2.1.symm.trans (hb i hbm).2)

/-- `Untrack` preserves the invariant when applied to an entry that is
currently in `good` (the only way `API::Wait` reaches it). -/
theorem wdInv_untrack {s : Entries} {w : Int} {idx : Nat} (reason : String)
    (hinv : WdInv s) (hmem : (w, idx) ∈ s.good) :
    WdInv (Untrack s idx reason) := by
  obtain ⟨hg, hgnd, hb, hbnd, hcov⟩ := hinv
  obtain ⟨hlt, hwd, hwne⟩ := hg _ hmem
  dsimp only at hlt hwd hwne
  have he : s.all[idx]? = some (s.all.getD idx dEntry) := by
    simp [List.getD_eq_getElem?_getD, List.getElem?_eq_getElem hlt]
  have hidxbad : idx ∉ s.bad := fun hx => hwne (hwd ▸ (hb idx hx).2)
  rw [Untrack, he]
  refine ⟨?_, ?_, ?_, ?_, ?_⟩
  · intro p hp
    have hp0 : p ∈ s.good := List.mem_of_mem_filter hp
    have hpk : p.1 ≠ (s.all.getD idx dEntry).wd := by
      have := List.of_mem_filter hp
      simpa using this
    have hpne : p.2 ≠ idx := by
      intro hcontra
      obtain ⟨_, hpw, _⟩ := hg p hp0
      rw [hcontra] at hpw
      exact hpk hpw.symm
    obtain ⟨hplt, hpw, hpz⟩ := hg p hp0
    refine ⟨by simpa using hplt, ?_, hpz⟩
    rw [getD_set_ne s.all _ (fun hx => hpne hx.symm)]
    exact hpw
  · simp only [goodKeys]
    have hsub :
        ((s.good.filter (fun p => p.1 != (s.all.getD idx dEntry).wd)).map
            (fun p : Int × Nat => p.1)).Sublist
          (s.good.map (fun p : Int × Nat => p.1)) :=
      List.Sublist.map _ (List.filter_sublist s.good)
    exact List.Nodup.sublist hsub hgnd
  · intro i hi
    rcases List.mem_append.mp hi with hi1 | hi1
    · obtain ⟨hilt, hiw⟩ := hb i hi1
      have hine : i ≠ idx := fun hx => hwne (hwd ▸ (hx ▸ hiw))
      refine ⟨by simpa using hilt, ?_⟩
      rw [getD_set_ne s.all _ (fun hx => hine hx.symm)]
      exact hiw
    · rw [List.mem_singleton.mp hi1]
      refine ⟨by simpa using hlt, ?_⟩
      rw [getD_set_self s.all _ hlt]
  · rw [List.nodup_append]
    exact ⟨hbnd, List.nodup_singleton idx, by
      intro a ha hb2
      rw [List.mem_singleton.mp hb2] at ha
      exact hidxbad ha⟩
  · intro i hi
    have hi' : i < s.all.length := by simpa using hi
    rcases hcov i hi' with hgm | hbm
    · obtain ⟨p, hp, hpi⟩ := mem_goodIdxs.mp hgm
      by_cases hpk : p.1 = (s.all.getD idx dEntry).wd
      · have hpeq : p = (w, idx) := by
          have hinj := List.inj_on_of_nodup_map hgnd
          exact hinj hp hmem (hpk.trans hwd)
        right
        have hieq : i = idx := by rw [← hpi, hpeq]
        rw [hieq]
        exact List.mem_append_right _ (List.mem_singleton_self idx)
      · left
        apply mem_goodIdxs.mpr
        refine ⟨p, ?_, hpi⟩
        exact List.mem_filter.mpr ⟨hp, by simpa using hpk⟩
    · right
      exact List.mem_append_left _ hbm

theorem extractBad_perm {allL : List Entry} {uri : String} :
    ∀ {bad : List Nat} {idx : Nat} {rest : List Nat},
      ExtractBad allL uri bad = some (idx, rest) →
        bad.Perm (idx :: rest) ∧ (allL.getD idx dEntry).uri = uri := by
  intro bad
  induction bad with
  | nil => intro idx rest h; cases h
  | cons i tl ih =>
    intro idx rest h
    unfold ExtractBad at h
    by_cases huri : (allL.getD i dEntry).uri = uri
    · rw [if_pos huri] at h
      have h' := Option.some_inj.mp h
      have ha : i = idx := congrArg Prod.fst h'
      have hb2 : tl = rest := congrArg Prod.snd h'
      subst ha
      subst hb2
      exact ⟨List.Perm.refl _, huri⟩
    · rw [if_neg huri] at h
      cases hrec : ExtractBad allL uri tl with
      | none => rw [hrec] at h; cases h
      | some pr =>
        obtain ⟨j, rest2⟩ := pr
        rw [hrec] at h
        have h' := Option.some_inj.mp h
        have ha : j = idx := congrArg Prod.fst h'
        have hb2 : i :: rest2 = rest := congrArg Prod.snd h'
        subst ha
        subst hb2
        obtain ⟨hp, hu⟩ := ih hrec
        exact ⟨(hp.cons i).trans (List.Perm.swap _ _ _), hu⟩

theorem mapSet_fresh {m : List (Int × Nat)} {k : Int} (v : Nat)
    (h : k ∉ m.map (fun p => p.1)) : MapSet m k v = m ++ [(k, v)] := by
  unfold MapSet
  rw [if_neg]
  intro hc
  rw [List.any_eq_true] at hc
  obtain ⟨p, hp, hpk⟩ := hc
  exact h (List.mem_map.mpr ⟨p, hp, by simpa using hpk⟩)

/-- The re-registration handler preserves the invariant, assuming the
kernel returns a fresh descriptor (never the sentinel and not colliding
with a live one) on success. -/
theorem wdInv_handler {s : Entries} (e : Event) (regWd : Int) (errS : String)
    (hinv : WdInv s) (hfresh : regWd ≠ -1 → regWd ∉ goodKeys s) :
    WdInv (Handler regWd errS s e).2 := by
  obtain ⟨hg, hgnd, hb, hbnd, hcov⟩ := hinv
  unfold Handler
  by_cases h1 : e.mask &&& IN_ISDIR = 0 ∧ e.mask &&& IN_CREATE ≠ 0
  · rw [if_neg (not_not_intro h1)]
    dsimp only
    by_cases h2 : s.fileUris.contains (candidateUri e) = true
    · rw [if_neg (by simpa using not_not_intro h2)]
      cases hex : ExtractBad s.all (candidateUri e) s.bad with
      | none => exact ⟨hg, hgnd, hb, hbnd, hcov⟩
      | some pr =>
        obtain ⟨idx, bad2⟩ := pr
        dsimp only
        have hperm := (extractBad_perm hex).1
        have hidxmem : idx ∈ s.bad :=
          hperm.mem_iff.mpr (List.mem_cons_self idx bad2)
        obtain ⟨hidxlt, hidxwd⟩ := hb idx hidxmem
        have hnd2 : (idx :: bad2).Nodup := (hperm.nodup_iff).mp hbnd
        have hidxnm : idx ∉ bad2 := (List.nodup_cons.mp hnd2).1
        have hbad2nd : bad2.Nodup := (List.nodup_cons.mp hnd2).2
        have hbad2mem : ∀ j ∈ bad2, j ∈ s.bad := fun j hj =>
          hperm.mem_iff.mpr (List.mem_cons_of_mem _ hj)
        have hgne : ∀ p ∈ s.good, p.2 ≠ idx := by
          intro p hp hc
          obtain ⟨_, hpw, hpz⟩ := hg p hp
          rw [hc, hidxwd] at hpw
          exact hpz hpw.symm
        have he' : s.all[idx]? = some (s.all.getD idx dEntry) := by
          simp [List.getD_eq_getElem?_getD, List.getElem?_eq_getElem hidxlt]
        rw [he']
        dsimp only
        by_cases hw : regWd = -1
        · rw [Register, if_pos hw]
          dsimp only
          rw [if_neg (by decide : ¬((false : Bool) = true))]
          dsimp only [TrackBad]
          refine ⟨?_, ?_, ?_, ?_, ?_⟩
          · intro p hp
            obtain ⟨hplt, hpw, hpz⟩ := hg p hp
            refine ⟨by simpa using hplt, ?_, hpz⟩
            rw [getD_set_ne s.all _ (fun hx => hgne p hp hx.symm)]
            exact hpw
          · exact hgnd
          · intro i hi
            rcases List.mem_append.mp hi with hi1 | hi1
            · obtain ⟨hilt, hiw⟩ := hb i (hbad2mem i hi1)
              have hine : i ≠ idx := fun hx => hidxnm (hx ▸ hi1)
              refine ⟨by simpa using hilt, ?_⟩
              rw [getD_set_ne s.all _ (fun hx => hine hx.symm)]
              exact hiw
            · rw [List.mem_singleton.mp hi1]
              refine ⟨by simpa using hidxlt, ?_⟩
              rw [getD_set_self s.all _ hidxlt]
              exact hw
          · rw [List.nodup_append]
            exact ⟨hbad2nd, List.nodup_singleton idx, by
              intro a ha hb2
              rw [List.mem_singleton.mp hb2] at ha
              exact hidxnm ha⟩
          · intro i hi
            have hi' : i < s.all.length := by simpa using hi
            rcases hcov i hi' with hgm | hbm
            · exact Or.inl hgm
            · right
              rcases List.mem_cons.mp (hperm.mem_iff.mp hbm) with hx | hx
              · rw [hx]
                exact List.mem_append_right _ (List.mem_singleton_self idx)
              · exact List.mem_append_left _ hx
        · rw [Register, if_neg hw]
          dsimp only
          rw [if_pos (rfl : (true : Bool) = true)]
          dsimp only [TrackGood, entAt]
          rw [getD_set_self s.all _ hidxlt]
          dsimp only
          rw [mapSet_fresh idx (hfresh hw)]
          refine ⟨?_, ?_, ?_, ?_, ?_⟩
          · intro p hp
            rcases List.mem_append.mp hp with hp1 | hp1
            · obtain ⟨hplt, hpw, hpz⟩ := hg p hp1
              refine ⟨by simpa using hplt, ?_, hpz⟩
              rw [getD_set_ne s.all _ (fun hx => hgne p hp1 hx.symm)]
              exact hpw
            · rw [List.mem_singleton.mp hp1]
              refine ⟨by simpa using hidxlt, ?_, hw⟩
              rw [getD_set_self s.all _ hidxlt]
          · show ((s.good ++ [(regWd, idx)]).map (fun p => p.1)).Nodup
            rw [List.map_append]
            rw [List.nodup_append]
            refine ⟨hgnd, by simp, ?_⟩
            intro a ha hb2
            simp only [List.map_cons, List.map_nil, List.mem_singleton] at hb2
            rw [hb2] at ha
            exact hfresh hw ha
          · intro i hi
            obtain ⟨hilt, hiw⟩ := hb i (hbad2mem i hi)
            have hine : i ≠ idx := fun hx => hidxnm (hx ▸ hi)
            refine ⟨by simpa using hilt, ?_⟩
            rw [getD_set_ne s.all _ (fun hx => hine hx.symm)]
            exact hiw
          · exact hbad2nd
          · intro i hi
            have hi' : i < s.all.length := by simpa using hi
            rcases hcov i hi' with hgm | hbm
            · left
              obtain ⟨p, hp, hpi⟩ := mem_goodIdxs.mp hgm
              exact mem_goodIdxs.mpr ⟨p, List.mem_append_left _ hp, hpi⟩
            · rcases List.mem_cons.mp (hperm.mem_iff.mp hbm) with hx | hx
              · left
                apply mem_goodIdxs.mpr
                exact ⟨(regWd, idx), List.mem_append_right _ (List.mem_singleton_self _), hx.symm⟩
              · exact Or.inr hx
    · rw [if_pos (by simpa using h2)]
      exact ⟨hg, hgnd, hb, hbnd, hcov⟩
  · rw [if_pos h1]
    exact ⟨hg, hgnd, hb, hbnd, hcov⟩

/-- Freshness of the kernel's descriptor assignments relative to the
current `good` map and the indices still to be registered. -/
def KFresh (kernel : Nat → Int) (s : Entries) (l : List Nat) : Prop :=
  ∀ i ∈ l, kernel i ≠ -1 →
    kernel i ∉ goodKeys s ∧ ∀ j ∈ l, kernel i = kernel j → i = j

/-- The invariant mid-way through the registration pass: `good`/`bad`
are well-formed, indices in `l` are still unregistered and
unpartitioned, and everything else is covered. -/
def PartialInv (s : Entries) (l : List Nat) : Prop :=
  (∀ p ∈ s.good, p.2 < s.all.length ∧ (s.all.getD p.2 dEntry).wd = p.1 ∧ p.1 ≠ -1) ∧
  (goodKeys s).Nodup ∧
  (∀ i ∈ s.bad, i < s.all.length ∧ (s.all.getD i dEntry).wd = -1) ∧
  s.bad.Nodup ∧
  (∀ i, i < s.all.length → i ∈ goodIdxs s ∨ i ∈ s.bad ∨ i ∈ l) ∧
  (∀ i ∈ l, i < s.all.length ∧ (s.all.getD i dEntry).wd = -1 ∧
    i ∉ goodIdxs s ∧ i ∉ s.bad) ∧
  l.Nodup

theorem regPass_inv (kernel : Nat → Int) (errS : String) :
    ∀ (l : List Nat) (s : Entries), PartialInv s l → KFresh kernel s l →
      WdInv (RegPass kernel errS s l) := by
  intro l
  induction l with
  | nil =>
    intro s hpi _
    obtain ⟨hg, hgnd, hb, hbnd, hcov, _, _⟩ := hpi
    refine ⟨hg, hgnd, hb, hbnd, fun i hi => ?_⟩
    rcases hcov i hi with h | h | h
    · exact Or.inl h
    · exact Or.inr h
    · exact absurd h (List.not_mem_nil i)
  | cons i rest ih =>
    intro s hpi hkf
    obtain ⟨hg, hgnd, hb, hbnd, hcov, hl, hlnd⟩ := hpi
    obtain ⟨hilt, hiwd, hign, hibn⟩ := hl i (List.mem_cons_self i rest)
    have hrnd : rest.Nodup := (List.nodup_cons.mp hlnd).2
    have hirm : i ∉ rest := (List.nodup_cons.mp hlnd).1
    have he' : s.all[i]? = some (s.all.getD i dEntry) := by
      simp [List.getD_eq_getElem?_getD, List.getElem?_eq_getElem hilt]
    rw [RegPass]
    apply ih
    · unfold RegStep
      rw [he']
      dsimp only
      by_cases hki : kernel i = -1
      · rw [Register, if_pos hki]
        dsimp only
        rw [if_neg (by decide : ¬((false : Bool) = true))]
        dsimp only [TrackBad]
        refine ⟨?_, hgnd, ?_, ?_, ?_, ?_, hrnd⟩
        · intro p hp
          obtain ⟨hplt, hpw, hpz⟩ := hg p hp
          have hpne : p.2 ≠ i := fun hx => hign (mem_goodIdxs.mpr ⟨p, hp, hx⟩)
          refine ⟨by simpa using hplt, ?_, hpz⟩
          rw [getD_set_ne s.all _ (fun hx => hpne hx.symm)]
          exact hpw
        · intro j hj
          rcases List.mem_append.mp hj with hj1 | hj1
          · obtain ⟨hjlt, hjw⟩ := hb j hj1
            have hjne : j ≠ i := fun hx => hibn (hx ▸ hj1)
            refine ⟨by simpa using hjlt, ?_⟩
            rw [getD_set_ne s.all _ (fun hx => hjne hx.symm)]
            exact hjw
          · rw [List.mem_singleton.mp hj1]
            refine ⟨by simpa using hilt, ?_⟩
            rw [getD_set_self s.all _ hilt]
            exact hki
        · rw [List.nodup_append]
          exact ⟨hbnd, List.nodup_singleton i, by
            intro a ha hx
            rw [List.mem_singleton.mp hx] at ha
            exact hibn ha⟩
        · intro i0 hi0
          have hi0' : i0 < s.all.length := by simpa using hi0
          rcases hcov i0 hi0' with h | h | h
          · exact Or.inl h
          · exact Or.inr (Or.inl (List.mem_append_left _ h))
          · rcases List.mem_cons.mp h with hx | hx
            · refine Or.inr (Or.inl ?_)
              rw [hx]
              exact List.mem_append_right _ (List.mem_singleton_self i)
            · exact Or.inr (Or.inr hx)
        · intro j hj
          obtain ⟨hjlt, hjwd, hjgn, hjbn⟩ := hl j (List.mem_cons_of_mem i hj)
          have hjne : j ≠ i := fun hx => hirm (hx ▸ hj)
          refine ⟨by simpa using hjlt, ?_, hjgn, ?_⟩
          · rw [getD_set_ne s.all _ (fun hx => hjne hx.symm)]
            exact hjwd
          · intro hx
            rcases List.mem_append.mp hx with hx1 | hx1
            · exact hjbn hx1
            · exact hjne (List.mem_singleton.mp hx1)
      · rw [Register, if_neg hki]
        dsimp only
        rw [if_pos (rfl : (true : Bool) = true)]
        dsimp only [TrackGood, entAt]
        rw [getD_set_self s.all _ hilt]
        dsimp only
        rw [mapSet_fresh i (hkf i (List.mem_cons_self i rest) hki).1]
        refine ⟨?_, ?_, ?_, hbnd, ?_, ?_, hrnd⟩
        · intro p hp
          rcases List.mem_append.mp hp with hp1 | hp1
          · obtain ⟨hplt, hpw, hpz⟩ := hg p hp1
            have hpne : p.2 ≠ i := fun hx => hign (mem_goodIdxs.mpr ⟨p, hp1, hx⟩)
            refine ⟨by simpa using hplt, ?_, hpz⟩
            rw [getD_set_ne s.all _ (fun hx => hpne hx.symm)]
            exact hpw
          · rw [List.mem_singleton.mp hp1]
            refine ⟨by simpa using hilt, ?_, hki⟩
            rw [getD_set_self s.all _ hilt]
        · show ((s.good ++ [(kernel i, i)]).map (fun p => p.1)).Nodup
          rw [List.map_append, List.nodup_append]
          refine ⟨hgnd, by simp, ?_⟩
          intro a ha hx
          simp only [List.map_cons, List.map_nil, List.mem_singleton] at hx
          rw [hx] at ha
          exact (hkf i (List.mem_cons_self i rest) hki).1 ha
        · intro j hj
          obtain ⟨hjlt, hjw⟩ := hb j hj
          have hjne : j ≠ i := fun hx => hibn (hx ▸ hj)
          refine ⟨by simpa using hjlt, ?_⟩
          rw [getD_set_ne s.all _ (fun hx => hjne hx.symm)]
          exact hjw
        · intro i0 hi0
          have hi0' : i0 < s.all.length := by simpa using hi0
          rcases hcov i0 hi0' with h | h | h
          · left
            obtain ⟨p, hp, hpi⟩ := mem_goodIdxs.mp h
            exact mem_goodIdxs.mpr ⟨p, List.mem_append_left _ hp, hpi⟩
          · exact Or.inr (Or.inl h)
          · rcases List.mem_cons.mp h with hx | hx
            · left
              apply mem_goodIdxs.mpr
              refine ⟨(kernel i, i), List.mem_append_right _ (List.mem_singleton_self _), hx.symm⟩
            · exact Or.inr (Or.inr hx)
        · intro j hj
          obtain ⟨hjlt, hjwd, hjgn, hjbn⟩ := hl j (List.mem_cons_of_mem i hj)
          have hjne : j ≠ i := fun hx => hirm (hx ▸ hj)
          refine ⟨by simpa using hjlt, ?_, ?_, hjbn⟩
          · rw [getD_set_ne s.all _ (fun hx => hjne hx.symm)]
            exact hjwd
          · intro hx
            obtain ⟨p, hp, hpi⟩ := mem_goodIdxs.mp hx
            rcases List.mem_append.mp hp with hp1 | hp1
            · exact hjgn (mem_goodIdxs.mpr ⟨p, hp1, hpi⟩)
            · rw [List.mem_singleton.mp hp1] at hpi
              exact hjne hpi.symm
    · unfold RegStep
      rw [he']
      dsimp only
      by_cases hki : kernel i = -1
      · rw [Register, if_pos hki]
        dsimp only
        rw [if_neg (by decide : ¬((false : Bool) = true))]
        dsimp only [TrackBad]
        intro j hj hkj
        obtain ⟨hk1, hk2⟩ := hkf j (List.mem_cons_of_mem i hj) hkj
        exact ⟨hk1, fun j2 hj2 => hk2 j2 (List.mem_cons_of_mem i hj2)⟩
      · rw [Register, if_neg hki]
        dsimp only
        rw [if_pos (rfl : (true : Bool) = true)]
        dsimp only [TrackGood, entAt]
        rw [getD_set_self s.all _ hilt]
        dsimp only
        rw [mapSet_fresh i (hkf i (List.mem_cons_self i rest) hki).1]
        intro j hj hkj
        obtain ⟨hk1, hk2⟩ := hkf j (List.mem_cons_of_mem i hj) hkj
        refine ⟨?_, fun j2 hj2 => hk2 j2 (List.mem_cons_of_mem i hj2)⟩
        show kernel j ∉ (s.good ++ [(kernel i, i)]).map (fun p => p.1)
        rw [List.map_append]
        intro hx
        rcases List.mem_append.mp hx with hx1 | hx1
        · exact hk1 hx1
        · have hkeq : kernel j = kernel i := by simpa using hx1
          have hji : j = i := hk2 i (List.mem_cons_self i rest) hkeq
          exact hirm (hji ▸ hj)

/-- The rule table as the Loader leaves it: nothing tracked yet and
every entry unregistered. -/
def PristineRT (s : Entries) : Prop :=
  s.good = [] ∧ s.bad = [] ∧ ∀ e ∈ s.all, e.wd = -1

theorem Add_good (dft : Defaults) (s : Entries) (a_type : EType) (a_object : CfgObj)
    (a_uri : String) (a_mask : Nat) (a_handler : Bool) :
    (Add dft s a_type a_object a_uri a_mask a_handler).good = s.good := by
  unfold Add
  cases a_type <;> cases a_handler <;> rfl

theorem Add_bad (dft : Defaults) (s : Entries) (a_type : EType) (a_object : CfgObj)
    (a_uri : String) (a_mask : Nat) (a_handler : Bool) :
    (Add dft s a_type a_object a_uri a_mask a_handler).bad = s.bad := by
  unfold Add
  cases a_type <;> cases a_handler <;> rfl

theorem Add_pristine {dft : Defaults} {s : Entries} {a_type : EType}
    {a_object : CfgObj} {a_uri : String} {a_mask : Nat} {a_handler : Bool}
    (h : PristineRT s) :
    PristineRT (Add dft s a_type a_object a_uri a_mask a_handler) := by
  obtain ⟨h1, h2, h3⟩ := h
  refine ⟨by rw [Add_good, h1], by rw [Add_bad, h2], ?_⟩
  rw [Add_all]
  intro e he
  rcases List.mem_append.mp he with he1 | he1
  · exact h3 e he1
  · rw [List.mem_singleton.mp he1]

theorem loadDir_pristine (dft : Defaults) (o : CfgObj) {s : Entries}
    (h : PristineRT s) : PristineRT (loadDir dft s o) := by
  unfold loadDir
  rcases o with ⟨ouri, oev, ou, oc, om, op⟩
  cases ouri with
  | none => exact h
  | some uri =>
    dsimp only
    split
    · exact h
    · exact Add_pristine h

theorem loadFile_pristine (dft : Defaults) (o : CfgObj) {s : Entries}
    (h : PristineRT s) : PristineRT (loadFile dft s o) := by
  unfold loadFile
  rcases o with ⟨ouri, oev, ou, oc, om, op⟩
  cases ouri with
  | none => exact h
  | some uri =>
    dsimp only
    split
    · exact h
    · unfold loadFileCore
      by_cases hdel : events2mask oev &&& IN_DELETE ≠ 0
      · rw [if_pos hdel]
        by_cases hmod : (events2mask oev ||| IN_DELETE_SELF) &&& IN_MODIFY ≠ 0
        · rw [if_pos hmod]
          cases hpar : parentOf uri with
          | none => exact h
          | some directory => exact Add_pristine (Add_pristine h)
        · rw [if_neg hmod]
          exact Add_pristine h
      · rw [if_neg hdel]
        by_cases hmod : events2mask oev &&& IN_MODIFY ≠ 0
        · rw [if_pos hmod]
          cases hpar : parentOf uri with
          | none => exact h
          | some directory => exact Add_pristine (Add_pristine h)
        · rw [if_neg hmod]
          exact Add_pristine h

theorem load_pristine (dft : Defaults) (dirs files : List CfgObj) :
    PristineRT (Load dft dirs files) := by
  unfold Load
  have hd : ∀ (l : List CfgObj) (s : Entries), PristineRT s →
      PristineRT (l.foldl (loadDir dft) s) := by
    intro l
    induction l with
    | nil => intro s h; exact h
    | cons o rest ih => intro s h; exact ih _ (loadDir_pristine dft o h)
  have hf : ∀ (l : List CfgObj) (s : Entries), PristineRT s →
      PristineRT (l.foldl (loadFile dft) s) := by
    intro l
    induction l with
    | nil => intro s h; exact h
    | cons o rest ih => intro s h; exact ih _ (loadFile_pristine dft o h)
  exact hf files _ (hd dirs emptyEntries ⟨rfl, rfl, by intro e he; cases he⟩)

/-- After the initial registration pass over a freshly loaded table the
invariant holds, provided the kernel's successful descriptor
assignments are injective (distinct watches get distinct descriptors). -/
theorem wdInv_registerAll (kernel : Nat → Int) (errS : String) {s : Entries}
    (hpr : PristineRT s)
    (hinj : ∀ i j, kernel i ≠ -1 → kernel i = kernel j → i = j) :
    WdInv (RegisterAll kernel errS s) := by
  obtain ⟨hgood, hbad, hwd⟩ := hpr
  apply regPass_inv
  · refine ⟨?_, ?_, ?_, ?_, ?_, ?_, List.nodup_range _⟩
    · rw [hgood]
      intro p hp
      cases hp
    · show (s.good.map (fun p => p.1)).Nodup
      rw [hgood]
      exact List.nodup_nil
    · rw [hbad]
      intro i hi
      cases hi
    · rw [hbad]
      exact List.nodup_nil
    · intro i hi
      exact Or.inr (Or.inr (List.mem_range.mpr hi))
    · intro i hi
      have hilt : i < s.all.length := List.mem_range.mp hi
      have hgd : s.all.getD i dEntry = s.all[i] := by
        simp [List.getD_eq_getElem?_getD, List.getElem?_eq_getElem hilt]
      refine ⟨hilt, ?_, ?_, ?_⟩
      · rw [hgd]
        exact hwd _ (List.getElem_mem hilt)
      · intro hx
        obtain ⟨p, hp, _⟩ := mem_goodIdxs.mp hx
        rw [hgood] at hp
        cases hp
      · rw [hbad]
        exact List.not_mem_nil i
  · intro i _ hki
    refine ⟨?_, fun j _ hkj => hinj i j hki hkj⟩
    show kernel i ∉ s.good.map (fun p => p.1)
    rw [hgood]
    exact List.not_mem_nil _

/-- C6 (amended): at every dispatch boundary the rule table satisfies
the good/bad partition — a rule is in `good` iff its `wd` is not the
sentinel `-1`, `good` and `bad` are disjoint, and every rule of `all`
is in one of them — PROVIDED distinct rules receive distinct watch
descriptors.  The kernel assigns descriptors per path, so the proviso
holds exactly when no two rules watch the same URI; when two rules do
share a URI the `good_[wd] = entry` insert-or-assign (api.cc:848)
overwrites, and the earlier rule is left in neither `good` nor `bad`
with a non-sentinel `wd` (see the counterexample).  Under the proviso:
first conjunct, the partition holds after the initial registration
pass over a loaded configuration (injective kernel descriptor
assignment over successes); second, `Untrack` (kernel invalidation)
preserves it when applied to a rule currently in `good`; third, the
re-registration handler preserves it (fresh descriptor on success).
The full invariant `WdInv` is carried alongside as the inductive
strengthening. -/
theorem C6_good_bad_partition :
    (∀ (dft : Defaults) (dirs files : List CfgObj) (kernel : Nat → Int)
      (errS : String),
      (∀ i j, kernel i ≠ -1 → kernel i = kernel j → i = j) →
      WdInv (RegisterAll kernel errS (Load dft dirs files)) ∧
      GoodBadPartition (RegisterAll kernel errS (Load dft dirs files))) ∧
    (∀ (s : Entries) (w : Int) (idx : Nat) (reason : String),
      WdInv s → (w, idx) ∈ s.good →
      WdInv (Untrack s idx reason) ∧ GoodBadPartition (Untrack s idx reason)) ∧
    (∀ (s : Entries) (e : Event) (regWd : Int) (errS : String),
      WdInv s → (regWd ≠ -1 → regWd ∉ goodKeys s) →
      WdInv (Handler regWd errS s e).2 ∧
      GoodBadPartition (Handler regWd errS s e).2) := by
  refine ⟨?_, ?_, ?_⟩
  · intro dft dirs files kernel errS hinj
    have h := wdInv_registerAll kernel errS (load_pristine dft dirs files) hinj
    exact ⟨h, wdInv_partition h⟩
  · intro s w idx reason hinv hmem
    have h := wdInv_untrack reason hinv hmem
    exact ⟨h, wdInv_partition h⟩
  · intro s e regWd errS hinv hfresh
    have h := wdInv_handler e regWd errS hinv hfresh
    exact ⟨h, wdInv_partition h⟩

/-- A one-rule table with the rule live in `good` under descriptor 5. -/
def c6ExState : Entries :=
  ⟨[⟨EType.file, "/x", IN_OPEN, 5, "u", "c", "m", "", "", "", false⟩],
    [(5, 0)], [], [], ["/x"]⟩

/-- Witness for C6: the `Untrack` preservation applied at a concrete
one-rule table. -/
theorem C6_good_bad_partition_witness :
    WdInv (Untrack c6ExState 0 "r") ∧
    GoodBadPartition (Untrack c6ExState 0 "r") :=
  C6_good_bad_partition.2.1 c6ExState 5 0 "r" (by decide) (by decide)

/-- Two file rules with `modify` under the same parent directory: the
loader manufactures one synthetic `"/d"` rule per file, so `all` holds
two rules for the same path. -/
def c6DupFiles : List CfgObj :=
  [⟨some "/d/a", ["modify"], none, none, none, none⟩,
   ⟨some "/d/b", ["modify"], none, none, none, none⟩]

/-- The kernel's actual behavior for this table: `inotify_add_watch`
returns the same descriptor for the same `(instance, path)` binding, so
the two `"/d"` rules (indices 0 and 2) both get descriptor 1, while the
distinct files get fresh descriptors. -/
def c6DupKernel : Nat → Int :=
  fun i => match i with
  | 0 => 1
  | 1 => 2
  | 2 => 1
  | _ => 3

/-- The rule table after the registration pass over the duplicate-path
configuration. -/
def c6DupState : Entries :=
  RegisterAll c6DupKernel "" (Load ⟨"u", "c", "m"⟩ [] c6DupFiles)

/-- C6 counterexample: the claim as stated is false at this reachable
boundary.  Entries 0 and 2 both watch `"/d"` and both register under
descriptor 1; `good_[wd] = entry` (api.cc:848) overwrites, so after the
initial registration pass entry 0 has `wd = 1 ≠ -1` yet sits in neither
`good` nor `bad`: rule 0 is in `good` does NOT follow from its `wd` not
being the sentinel, and `all` is not covered by `good ∪ bad` — the
partition `GoodBadPartition` fails. -/
theorem C6_counterexample :
    (c6DupState.all.getD 0 dEntry).uri = "/d" ∧
    (c6DupState.all.getD 2 dEntry).uri = "/d" ∧
    (c6DupState.all.getD 0 dEntry).wd = 1 ∧
    0 ∉ goodIdxs c6DupState ∧
    0 ∉ c6DupState.bad ∧
    ¬ GoodBadPartition c6DupState := by
  refine ⟨by decide, by decide, by decide, by decide, by decide, by decide⟩

end CasperInotify
